import Mathlib

set_option autoImplicit false

/-!
Verification development for the go-nixplay client library.

This file gives a shallow embedding, in Lean 4, of the parts of the
repository that the specification's claims are about:

* the generic element cache (`internal/cache/cache.go`): lazy page-walk,
  name / unique-name / id indexes, `Add`, `Remove`, `Reset`;
* the identity derivations (`newContainer` in container.go, `newPhoto` and
  `md5HashFromPhotoURL` in photo.go);
* the upload pipeline's monitor step and `AddPhoto`'s duplicate-content
  tolerance (`upload.go`, container.go);
* the HTTP status-error helpers (`httpx/status_error.go`,
  `httpx/do_json_response.go`).

Modelling conventions:

* Go machine integers that are only compared or used as map keys are
  modelled as `Nat`; byte slices as `List Nat` (each entry a byte value).
* Go `(value, error)` returns become `Except String` values; a Go `panic`
  is a distinct constructor (`CRes.panicked`).
* Go maps are modelled as association lists in key-insertion order; Go's
  randomized map iteration order is determinized to insertion order (none
  of the proved statements depend on iteration order).
* The SHA-256 and MD5 routines of the Go standard library are outside the
  repository; they are abstracted as explicit function parameters
  (`H : List Nat → List Nat` for SHA-256, `md5fn` for MD5).  Every claim
  about identities concerns which bytes are fed to the hash and that the
  derivations are pure, which is independent of the hash body.
* The cache registering itself as a deletion listener on an element
  (`le.AddDeletedListener(c)`) is an externally observable call on the
  element; it is recorded in the ghost field `registeredIDs`.
-/

deriving instance DecidableEq for Except

namespace GoNixplay

/-! ## Elements (cache.Element, ListenableElement, ElementUniqueNameGenerator)

An element of the generic cache.  `nameRes` is the (fixed) outcome of its
`Name(ctx)` method, `listenable` says whether its dynamic type implements
`ListenableElement`, and `uniqueGen` is `none` when the dynamic type does
not implement `ElementUniqueNameGenerator`, otherwise the outcome of
`GenerateUniqueName(ctx)`. -/
structure Elem where
  id : Nat
  nameRes : Except String String
  listenable : Bool
  uniqueGen : Option (Except String String)
  deriving DecidableEq, Repr

/-- Association-list lookup (first binding wins), mirroring a Go map read. -/
def assocLookup {α : Type} (m : List (String × α)) (k : String) : Option α :=
  match m with
  | [] => none
  | (k1, v) :: rest => if k1 = k then some v else assocLookup rest k

/-- Association-list write (overwrite in place, else append), mirroring a Go
map assignment `m[k] = v`. -/
def assocSet {α : Type} (m : List (String × α)) (k : String) (v : α) :
    List (String × α) :=
  match m with
  | [] => [(k, v)]
  | (k1, v1) :: rest =>
    if k1 = k then (k1, v) :: rest else (k1, v1) :: assocSet rest k v

/-- Association-list delete, mirroring Go `delete(m, k)`. -/
def assocDelete {α : Type} (m : List (String × α)) (k : String) :
    List (String × α) :=
  match m with
  | [] => []
  | (k1, v1) :: rest =>
    if k1 = k then rest else (k1, v1) :: assocDelete rest k

/-- Lookup in the id-keyed map `idToElement`. -/
def idLookup (m : List (Nat × Elem)) (i : Nat) : Option Elem :=
  match m with
  | [] => none
  | (k, v) :: rest => if k = i then some v else idLookup rest i

/-- Delete from the id-keyed map, mirroring Go `delete(m, id)`. -/
def idDelete (m : List (Nat × Elem)) (i : Nat) : List (Nat × Elem) :=
  match m with
  | [] => []
  | (k, v) :: rest => if k = i then rest else (k, v) :: idDelete rest i

/-- Go `nameToElements[n] = append(nameToElements[n], e)`. -/
def mapAppend (m : List (String × List Elem)) (k : String) (e : Elem) :
    List (String × List Elem) :=
  match assocLookup m k with
  | none => m ++ [(k, [e])]
  | some s => assocSet m k (s ++ [e])

/-! ## Cache state (the fields of Cache[T] in cache.go) -/

/-- State of a `Cache[T]`.  `registeredIDs` is a ghost log of the ids of the
elements on which the cache called `AddDeletedListener` (it corresponds to
no Go field; all other fields are the Go struct's fields). -/
structure CacheState where
  foundAll : Bool
  elements : List Elem
  nameToElements : Option (List (String × List Elem))
  uniqueNameToElement : Option (List (String × Elem))
  idToElement : List (Nat × Elem)
  registeredIDs : List Nat
  deriving DecidableEq, Repr

/-- The state built by `NewCache` in cache.go. -/
def newCache : CacheState :=
  { foundAll := false
    elements := []
    nameToElements := none
    uniqueNameToElement := none
    idToElement := []
    registeredIDs := [] }

/-- Result of a cache operation: normal return with the post state and a
value, an error return with the post state, a Go panic, or fuel exhaustion
of the page-walk loop (the Go loop is unbounded; `fuelOut` never occurs in
any proved statement, whose hypotheses bound the loop). -/
inductive CRes (α : Type) where
  | ok (c : CacheState) (val : α)
  | fail (msg : String) (c : CacheState)
  | panicked (msg : String)
  | fuelOut
  deriving DecidableEq, Repr

/-- Sequence a unit-valued cache operation with a continuation, mirroring
the Go early-return-on-error chains. -/
def CRes.bindU {α β : Type} (r : CRes α) (f : CacheState → CRes β) : CRes β :=
  match r with
  | .ok c _ => f c
  | .fail e c => .fail e c
  | .panicked m => .panicked m
  | .fuelOut => .fuelOut

/-- Turn a unit result into a valued result read off the final state. -/
def CRes.withVal {α β : Type} (r : CRes α) (f : CacheState → β) : CRes β :=
  match r with
  | .ok c _ => .ok c (f c)
  | .fail e c => .fail e c
  | .panicked m => .panicked m
  | .fuelOut => .fuelOut

/-- A page source (`elementPageFunc` in cache.go): page number to the list
of elements on that page, or an error. -/
def PageFunc : Type := Nat → Except String (List Elem)

/-! ## addElementUnsafe / Add (cache.go lines 172-221) -/

/-- Model of `addElementUnsafe`: early return if the id is cached, else
append to `elements`, insert into `idToElement`, nil both name indexes,
then panic unless the element implements `ListenableElement`, in which
case register the cache as deletion listener (ghost-logged). -/
def addElementUnsafe (c : CacheState) (p : Elem) : CRes Unit :=
  if (idLookup c.idToElement p.id).isSome then .ok c ()
  else if p.listenable then
    .ok { c with
          elements := c.elements ++ [p]
          idToElement := c.idToElement ++ [(p.id, p)]
          nameToElements := none
          uniqueNameToElement := none
          registeredIDs := c.registeredIDs ++ [p.id] } ()
  else .panicked "must implement ListenableElement"

/-- Model of the public `Add` (which just locks and calls
`addElementUnsafe`). -/
def Add (c : CacheState) (p : Elem) : CRes Unit :=
  addElementUnsafe c p

/-- The `for _, p := range elements { c.addElementUnsafe(p) }` loop inside
`loadAllUnsafe`. -/
def addAllUnsafe (c : CacheState) : List Elem → CRes Unit
  | [] => .ok c ()
  | e :: rest =>
    match addElementUnsafe c e with
    | .ok c1 _ => addAllUnsafe c1 rest
    | r => r

/-! ## loadAllUnsafe (cache.go lines 153-168)

The Go loop `for page := 0; !c.foundAll; page++` is given explicit fuel;
the second component of the result is the list of page numbers requested
from the page source during the call. -/
def loadAllUnsafe (pf : PageFunc) : Nat → Nat → CacheState → CRes Unit × List Nat
  | 0, _, c => (if c.foundAll then .ok c () else .fuelOut, [])
  | fuel + 1, page, c =>
    if c.foundAll then (.ok c (), [])
    else
      match pf page with
      | .error e => (.fail e c, [page])
      | .ok pageElems =>
        let c1 := if pageElems.isEmpty then { c with foundAll := true } else c
        match addAllUnsafe c1 pageElems with
        | .ok c2 _ =>
          let r := loadAllUnsafe pf fuel (page + 1) c2
          (r.1, page :: r.2)
        | r => (r, [page])

/-- Model of `All`: load everything, then return a copy of `elements`. -/
def All (pf : PageFunc) (fuel : Nat) (c : CacheState) :
    CRes (List Elem) × List Nat :=
  let r := loadAllUnsafe pf fuel 0 c
  (r.1.withVal (fun c1 => c1.elements), r.2)

/-! ## populateNameMapUnsafe (cache.go lines 223-243) -/

/-- The loop building `nameToElements` from `elements`. -/
def buildNameMap : List Elem → List (String × List Elem) →
    Except String (List (String × List Elem))
  | [], m => .ok m
  | e :: rest, m =>
    match e.nameRes with
    | .error err => .error err
    | .ok n => buildNameMap rest (mapAppend m n e)

/-- Model of `populateNameMapUnsafe`: no-op when the index exists; build it
otherwise; the deferred recovery discards the partial map on error. -/
def populateNameMapUnsafe (c : CacheState) : CRes Unit :=
  match c.nameToElements with
  | some _ => .ok c ()
  | none =>
    match buildNameMap c.elements [] with
    | .error err => .fail err { c with nameToElements := none }
    | .ok m => .ok { c with nameToElements := some m } ()

/-! ## populateUniqueNameMapUnsafe (cache.go lines 245-288) -/

/-- The inner loop over a colliding name group: each member must implement
`ElementUniqueNameGenerator`, its generated name must succeed and must not
already be in the unique-name map. -/
def insertUniqueGroup (acc : List (String × Elem)) :
    List Elem → Except String (List (String × Elem))
  | [] => .ok acc
  | e :: rest =>
    match e.uniqueGen with
    | none => .error "does not implement ElementUniqueNameGenerator"
    | some (.error err) => .error err
    | some (.ok uName) =>
      if (assocLookup acc uName).isSome then
        .error ("multiple elements with the unique name " ++ uName ++ " exist")
      else insertUniqueGroup (assocSet acc uName e) rest

/-- The loop over `nameToElements` building `uniqueNameToElement`:
singleton groups are inserted under the plain name, larger groups through
`insertUniqueGroup`. -/
def buildUniqueMap : List (String × List Elem) → List (String × Elem) →
    Except String (List (String × Elem))
  | [], acc => .ok acc
  | (name, es) :: rest, acc =>
    match es with
    | [e] => buildUniqueMap rest (assocSet acc name e)
    | _ =>
      match insertUniqueGroup acc es with
      | .error err => .error err
      | .ok acc1 => buildUniqueMap rest acc1

/-- The trailing loop of `populateUniqueNameMapUnsafe` (cache.go lines
280-286), which re-appends every cached element to `nameToElements`; on a
`Name` error the appends made so far remain (only the unique-name map is
discarded by the deferred recovery). -/
def strayNameAppend : List Elem → List (String × List Elem) →
    List (String × List Elem) × Option String
  | [], m => (m, none)
  | e :: rest, m =>
    match e.nameRes with
    | .error err => (m, some err)
    | .ok n => strayNameAppend rest (mapAppend m n e)

/-- Model of `populateUniqueNameMapUnsafe`.  When `nameToElements` is nil,
Go ranges over a nil map (zero iterations) and the trailing loop's
assignment into the nil map panics unless `elements` is empty; this path
is unreachable from the public operations, which build the name map
first. -/
def populateUniqueNameMapUnsafe (c : CacheState) : CRes Unit :=
  match c.uniqueNameToElement with
  | some _ => .ok c ()
  | none =>
    match c.nameToElements with
    | none =>
      match c.elements with
      | [] => .ok { c with uniqueNameToElement := some [] } ()
      | e :: _ =>
        match e.nameRes with
        | .error err => .fail err c
        | .ok _ => .panicked "assignment to entry in nil map"
    | some m =>
      match buildUniqueMap m [] with
      | .error err => .fail err { c with uniqueNameToElement := none }
      | .ok um =>
        match strayNameAppend c.elements m with
        | (m1, some err) =>
          .fail err { c with nameToElements := some m1, uniqueNameToElement := none }
        | (m1, none) =>
          .ok { c with nameToElements := some m1, uniqueNameToElement := some um } ()

/-! ## Lookup operations (cache.go lines 97-149) -/

/-- Model of `ElementsWithName`: load, build the name index, return a copy
of the matching slice (empty when the name is absent). -/
def ElementsWithName (pf : PageFunc) (fuel : Nat) (c : CacheState)
    (name : String) : CRes (List Elem) × List Nat :=
  let r := loadAllUnsafe pf fuel 0 c
  (r.1.bindU (fun c1 =>
    (populateNameMapUnsafe c1).withVal (fun c2 =>
      (assocLookup (c2.nameToElements.getD []) name).getD [])), r.2)

/-- Model of `ElementWithUniqueName`: load, build the name index, build the
unique-name index, then a plain map read (`none` models the zero value
returned on a miss). -/
def ElementWithUniqueName (pf : PageFunc) (fuel : Nat) (c : CacheState)
    (name : String) : CRes (Option Elem) × List Nat :=
  let r := loadAllUnsafe pf fuel 0 c
  (r.1.bindU (fun c1 =>
    (populateNameMapUnsafe c1).bindU (fun c2 =>
      (populateUniqueNameMapUnsafe c2).withVal (fun c3 =>
        assocLookup (c3.uniqueNameToElement.getD []) name))), r.2)

/-- Model of `ElementWithID`: load, then a plain map read (`none` models
the zero value returned on a miss). -/
def ElementWithID (pf : PageFunc) (fuel : Nat) (c : CacheState) (i : Nat) :
    CRes (Option Elem) × List Nat :=
  let r := loadAllUnsafe pf fuel 0 c
  (r.1.withVal (fun c1 => idLookup c1.idToElement i), r.2)

/-! ## Reset (cache.go lines 380-394) -/

/-- Model of `resetUnsafe` / `Reset`: every cache field is cleared (the
ghost listener log is not a cache field and is kept). -/
def Reset (c : CacheState) : CacheState :=
  { c with
    foundAll := false
    elements := []
    nameToElements := none
    uniqueNameToElement := none
    idToElement := [] }

/-! ## Remove (cache.go lines 314-376) -/

/-- Swap-remove at index `i`: the Go idiom `s[i] = s[len-1]; s = s[:len-1]`. -/
def swapRemoveAt (s : List Elem) (i : Nat) : List Elem :=
  match s.getLast? with
  | none => s
  | some last => (s.set i last).dropLast

/-- Swap-remove the first element with the given id, mirroring the loop
over `c.elements` in `Remove`. -/
def swapRemoveById (s : List Elem) (i : Nat) : List Elem :=
  match s.findIdx? (fun e => e.id = i) with
  | none => s
  | some idx => swapRemoveAt s idx

/-- The `nameToElements` update inside `Remove`: find the first entry of
the name's slice with the removed id; delete the whole key when the slice
is a singleton, else swap-remove within the slice. -/
def removeFromNameMap (m : List (String × List Elem)) (name : String)
    (i : Nat) : List (String × List Elem) :=
  let s := (assocLookup m name).getD []
  match s.findIdx? (fun e => e.id = i) with
  | none => m
  | some idx =>
    if s.length = 1 then assocDelete m name
    else assocSet m name (swapRemoveAt s idx)

/-- Model of `Remove`: early return when the id is not cached; otherwise
remove from `elements`, update `nameToElements` when built (a `Name` error
on the cached copy triggers the deferred full reset), nil the unique-name
index and delete from `idToElement`. -/
def Remove (c : CacheState) (e : Elem) : CRes Unit :=
  match idLookup c.idToElement e.id with
  | none => .ok c ()
  | some cached =>
    let c1 := { c with elements := swapRemoveById c.elements e.id }
    match c1.nameToElements with
    | none =>
      .ok { c1 with
            uniqueNameToElement := none
            idToElement := idDelete c1.idToElement e.id } ()
    | some m =>
      match cached.nameRes with
      | .error err => .fail err (Reset c)
      | .ok name =>
        .ok { c1 with
              nameToElements := some (removeFromNameMap m name e.id)
              uniqueNameToElement := none
              idToElement := idDelete c1.idToElement e.id } ()

/-! ## httpx (httpx/status_error.go, httpx/do_json_response.go) -/

/-- An HTTP response as the embedding sees it: status code, status line,
and the full body text. -/
structure HResponse where
  statusCode : Nat
  status : String
  body : String
  deriving DecidableEq, Repr

/-- Model of `httpx.StatusError`: a non-2xx status yields an error message
built from the status line only. -/
def StatusError (resp : HResponse) : Option String :=
  if resp.statusCode < 200 ∨ 300 ≤ resp.statusCode then
    some ("http status: " ++ resp.status)
  else none

/-- Model of `httpx.DoUnmarshalJSONResponse` (the variant at
do_json_response.go lines 10-32).  The first component is the returned
error or unmarshalled value; the second is the list of lines the function
prints to standard output (on a status error it prints the response body
and returns the status error). -/
def DoUnmarshalJSONResponse {α : Type} (doResp : Except String HResponse)
    (unmarshal : String → Except String α) : Except String α × List String :=
  match doResp with
  | .error e => (.error e, [])
  | .ok resp =>
    match StatusError resp with
    | some e => (.error e, [resp.body])
    | none => (unmarshal resp.body, [])

/-! ## Errors of the upload pipeline (upload.go lines 288, 301-343, 509-538)

Go errors are wrapped with `fmt.Errorf("...: %w", err)` by the `errorx`
helpers; `errors.Is(err, errDuplicateImage)` looks through that chain for
the sentinel.  The embedding keeps the chain explicit. -/
inductive UErr where
  | duplicateImage
  | msg (s : String)
  | wrap (ctx : String) (e : UErr)
  deriving DecidableEq, Repr

/-- Model of `errors.Is(err, errDuplicateImage)`. -/
def UErr.isDuplicate : UErr → Bool
  | .duplicateImage => true
  | .wrap _ e => e.isDuplicate
  | .msg _ => false

/-- Model of `monitorUpload` (upload.go lines 509-538) applied to the
outcome of the monitor request: a 400 with body `Error: image-exists` is
the duplicate-image sentinel, any other 400 carries status and body, any
other non-2xx is a plain status error, a 2xx is success. -/
def monitorUpload (doResp : Except String HResponse) : Option UErr :=
  let inner : Option UErr :=
    match doResp with
    | .error e => some (.msg e)
    | .ok resp =>
      if resp.statusCode = 400 then
        if resp.body = "Error: image-exists" then some .duplicateImage
        else some (.msg ("http status: " ++ resp.status ++ ": body: " ++ resp.body))
      else
        match StatusError resp with
        | some e => some (.msg e)
        | none => none
  inner.map (UErr.wrap "monitorUpload")

/-! ## The upload pipeline steps (upload.go lines 301-343)

Each remote step of `addPhoto` is parameterized by its outcome; the
content stream is the byte list `content`, hashed through the tee reader
during the object-storage transfer. -/
structure UploadEnv where
  photoDataRes : Except String Nat
  tokenRes : Except String String
  registerIDsRes : Except String (List String)
  s3Res : Option String
  monitorResp : Except String HResponse
  content : List Nat
  deriving DecidableEq, Repr

/-- The `uploadedPhoto` result struct of upload.go. -/
structure UploadedPhoto where
  name : String
  md5Hash : List Nat
  size : Nat
  deriving DecidableEq, Repr

/-- The zero `uploadedPhoto` returned by the early-failure paths. -/
def zeroUploadedPhoto : UploadedPhoto :=
  { name := "", md5Hash := List.replicate 16 0, size := 0 }

/-- Model of `addPhoto` (upload.go lines 301-343): run the steps in order,
wrapping each failure; after a successful transfer the MD5 hash of the
streamed content is known, and the monitor outcome is returned TOGETHER
with the upload data (the caller may tolerate it). -/
def addPhoto (md5fn : List Nat → List Nat) (env : UploadEnv) (name : String) :
    UploadedPhoto × Option UErr :=
  match env.photoDataRes with
  | .error e =>
    (zeroUploadedPhoto, some (.wrap "addPhoto" (.wrap "getUploadPhotoData" (.msg e))))
  | .ok size =>
    match env.tokenRes with
    | .error e =>
      (zeroUploadedPhoto, some (.wrap "addPhoto" (.wrap "getUploadToken" (.msg e))))
    | .ok _token =>
      match env.registerIDsRes with
      | .error e =>
        (zeroUploadedPhoto, some (.wrap "addPhoto" (.wrap "uploadNixplay" (.msg e))))
      | .ok uploadIDs =>
        match env.s3Res with
        | some e =>
          (zeroUploadedPhoto, some (.wrap "addPhoto" (.wrap "uploadS3" (.msg e))))
        | none =>
          let md5Hash := md5fn env.content
          if uploadIDs.length ≠ 1 then
            (zeroUploadedPhoto,
             some (.wrap "addPhoto" (.msg "unable to wait for photo to be uploaded")))
          else
            ({ name := name, md5Hash := md5Hash, size := size },
             (monitorUpload env.monitorResp).map (UErr.wrap "addPhoto"))

/-! ## Identity derivations (container.go newContainer, photo.go newPhoto)

SHA-256 is standard-library code outside this repository; it enters the
embedding as the explicit parameter `H : List Nat → List Nat`. -/

/-- Container kinds (types.ContainerType). -/
inductive ContainerType where
  | album
  | playlist
  deriving DecidableEq, Repr

/-- The bytes of the container kind tag, `[]byte(containerType)`. -/
def containerTypeTag : ContainerType → List Nat
  | .album => "album".toList.map Char.toNat
  | .playlist => "playlist".toList.map Char.toNat

/-- The 8 little-endian bytes of a uint64,
`binary.LittleEndian.PutUint64`. -/
def le64 (n : Nat) : List Nat :=
  [n % 256, n / 256 % 256, n / 256 ^ 2 % 256, n / 256 ^ 3 % 256,
   n / 256 ^ 4 % 256, n / 256 ^ 5 % 256, n / 256 ^ 6 % 256, n / 256 ^ 7 % 256]

/-- The fields of the `container` struct that identity and upload depend
on. -/
structure GoContainer where
  containerType : ContainerType
  name : String
  id : List Nat
  nixplayID : Nat
  deriving DecidableEq, Repr

/-- Model of `newContainer` (container.go lines 82-107): the container id
is the hash of the kind tag followed by the little-endian remote id. -/
def newContainer (H : List Nat → List Nat) (containerType : ContainerType)
    (name : String) (nixplayID : Nat) : GoContainer :=
  { containerType := containerType
    name := name
    id := H (containerTypeTag containerType ++ le64 nixplayID)
    nixplayID := nixplayID }

/-! ## MD5-from-URL extraction (photo.go lines 145-164) -/

/-- Hexadecimal digit test, `[A-Fa-f0-9]`. -/
def isHexChar (c : Char) : Bool :=
  c.isDigit || ('a' ≤ c && c ≤ 'f') || ('A' ≤ c && c ≤ 'F')

/-- Value of one hexadecimal digit. -/
def hexVal (c : Char) : Nat :=
  if c.isDigit then c.toNat - '0'.toNat
  else if 'a' ≤ c && c ≤ 'f' then c.toNat - 'a'.toNat + 10
  else c.toNat - 'A'.toNat + 10

/-- Decode hexadecimal character pairs into bytes (`hex.Decode`). -/
def hexDecodePairs : List Char → List Nat
  | a :: b :: rest => (hexVal a * 16 + hexVal b) :: hexDecodePairs rest
  | _ => []

/-- Model of `MD5Hash.UnmarshalText` (types/types.go): the text must
decode to exactly 16 bytes of valid hexadecimal. -/
def md5UnmarshalText (cs : List Char) : Except String (List Nat) :=
  if cs.length / 2 ≠ 16 then .error "invalid md5 hash length"
  else if cs.length % 2 = 0 && cs.all isHexChar then .ok (hexDecodePairs cs)
  else .error "failed to decode md5 hash"

/-- The anchored pattern of `md5HashFromPhotoURLPath`: a slash, one or more
digits, a slash, one or more digits, an underscore, then a captured run of
exactly 32 hexadecimal characters (arbitrary trailing characters). -/
def matchMD5Path (cs : List Char) : Option (List Char) :=
  match cs with
  | '/' :: rest =>
    if (rest.takeWhile Char.isDigit).isEmpty then none
    else
      match rest.dropWhile Char.isDigit with
      | '/' :: rest2 =>
        if (rest2.takeWhile Char.isDigit).isEmpty then none
        else
          match rest2.dropWhile Char.isDigit with
          | '_' :: rest3 =>
            if (rest3.take 32).length = 32 && (rest3.take 32).all isHexChar
            then some (rest3.take 32) else none
          | _ => none
      | _ => none
  | _ => none

/-- Model of `md5HashFromPhotoURL` (photo.go lines 145-164).  The source
parses the URL with `url.Parse` (standard library) and applies the
pattern to the path component; the embedding represents a URL by that
path. -/
def md5HashFromPhotoURL (url : String) : Except String (List Nat) :=
  match matchMD5Path url.toList with
  | none => .error "regexp failed to find MD5 hash in URL"
  | some cap => md5UnmarshalText cap

/-! ## newPhoto (photo.go lines 71-141) -/

/-- The fields of the `photo` struct fixed at construction. -/
structure GoPhoto where
  id : List Nat
  md5Hash : List Nat
  name : String
  nixplayID : Nat
  size : Nat
  url : String
  deriving DecidableEq, Repr

/-- Model of `newPhoto`: the MD5 hash must be supplied directly or be
extractable from the URL, else construction fails; the photo id is the
hash of the owning container id followed by the MD5 hash. -/
def newPhoto (H : List Nat → List Nat) (containerID : List Nat)
    (name : String) (md5Hash : Option (List Nat)) (nixplayID : Nat)
    (size : Nat) (url : String) : Except String GoPhoto :=
  let mk : List Nat → GoPhoto := fun h =>
    { id := H (containerID ++ h)
      md5Hash := h
      name := name
      nixplayID := nixplayID
      size := size
      url := url }
  match md5Hash with
  | some h => .ok (mk h)
  | none =>
    if url = "" then .error "MD5 or photo URL must be provided"
    else
      match md5HashFromPhotoURL url with
      | .error e => .error e
      | .ok h => .ok (mk h)

/-! ## AddPhoto (container.go lines 195-243) -/

/-- Model of `container.AddPhoto`: run the upload pipeline; a duplicate
image error is cleared exactly when the container is a playlist; any
remaining error is returned, else the reconciled photo is built by
`newPhoto` with the pipeline's MD5 hash (the cache insertion and photo
count update carry no information the claims need and are elided). -/
def AddPhoto (H : List Nat → List Nat) (md5fn : List Nat → List Nat)
    (c : GoContainer) (env : UploadEnv) (name : String) : Except UErr GoPhoto :=
  let r := addPhoto md5fn env name
  let e1 : Option UErr :=
    match r.2 with
    | some err =>
      if err.isDuplicate && c.containerType = ContainerType.playlist then none
      else some err
    | none => none
  match e1 with
  | some err => .error (.wrap "AddPhoto" err)
  | none =>
    match newPhoto H c.id name (some r.1.md5Hash) 0 r.1.size "" with
    | .error err => .error (.wrap "AddPhoto" (.msg err))
    | .ok p => .ok p

/-! ## Spec-side identity definitions (for the refinement claim C2)

These two definitions follow the words of the specification
(`ContainerID(kind, remoteNumericID) = Hash(kindTag ‖ leb(remoteNumericID))`,
`PhotoID(containerID, contentHash) = Hash(containerID ‖ contentHash)`) and
are compared against the source-derived definitions above. -/

/-- Spec-side reference definition of the container identity derivation,
written from the specification's words for comparison with
`newContainer`. -/
def specContainerID (H : List Nat → List Nat) (kind : ContainerType)
    (remoteNumericID : Nat) : List Nat :=
  H (containerTypeTag kind ++ le64 remoteNumericID)

/-- Spec-side reference definition of the photo identity derivation,
written from the specification's words for comparison with `newPhoto`. -/
def specPhotoID (H : List Nat → List Nat) (containerID : List Nat)
    (contentHash : List Nat) : List Nat :=
  H (containerID ++ contentHash)

/-! ## Derived notions used by claim statements -/

/-- Validity of the byName index as claim C4 states it: either nil, or it
maps each name to exactly the live elements bearing that name (in cache
order, with no duplicated entries). -/
def nameMapValid (c : CacheState) : Prop :=
  match c.nameToElements with
  | none => True
  | some m =>
    ∀ n : String,
      (assocLookup m n).getD [] =
        c.elements.filter (fun e => e.nameRes = Except.ok n)

/-- Whether `needle` occurs at the head of `hay`. -/
def startsWithSeq : List Char → List Char → Bool
  | _, [] => true
  | [], _ :: _ => false
  | a :: as, b :: bs => a = b && startsWithSeq as bs

/-- Whether `needle` occurs contiguously anywhere inside `hay` (used to
state that an error message does not carry the response body). -/
def containsSeq : List Char → List Char → Bool
  | [], needle => needle.isEmpty
  | h :: t, needle => startsWithSeq (h :: t) needle || containsSeq t needle

/-- Consistency of the id index with the element list: an id has a binding
in `idToElement` exactly when some cached element bears it.  This holds in
every state reachable by the page-walk and is what makes the
already-seen-id check de-duplicate against the element list. -/
def idIndexConsistent (c : CacheState) : Prop :=
  ∀ i : Nat, (idLookup c.idToElement i).isSome = true ↔ i ∈ c.elements.map Elem.id

/-- The generated unique name of an element, when its type has the
capability and generation succeeds. -/
def genOf (e : Elem) : Option String :=
  match e.uniqueGen with
  | some (.ok u) => some u
  | _ => none

/-- All successfully generated unique names of a name group's members. -/
def groupGenNames (es : List Elem) : List String :=
  es.filterMap genOf

/-- All generated unique names over the colliding (non-singleton) groups
of a byName index, in processing order. -/
def genNames : List (String × List Elem) → List String
  | [] => []
  | (_, es) :: rest =>
    (if es.length = 1 then [] else groupGenNames es) ++ genNames rest

/-! ## Concrete fixtures used by counterexamples and witnesses -/

/-- A listenable element with name `a` (fixture). -/
def elemA : Elem := ⟨4, .ok "a", true, some (.ok "ua")⟩

/-- A page source serving `elemA` on page 0 and an empty page after
(fixture). -/
def pfA : PageFunc := fun p => if p = 0 then .ok [elemA] else .ok []

/-- The cache state after `All` and `ElementsWithName "a"` on `pfA`
(fixture, checked by the claim theorems). -/
def stateAfterName : CacheState :=
  ⟨true, [elemA], some [("a", [elemA])], none, [(4, elemA)], [4]⟩

/-- The cache state after additionally calling `ElementWithUniqueName`:
the stray loop of `populateUniqueNameMapUnsafe` has duplicated `elemA`
inside the byName index (fixture, checked by the claim theorems). -/
def stateAfterUnique : CacheState :=
  ⟨true, [elemA], some [("a", [elemA, elemA])], some [("a", elemA)],
   [(4, elemA)], [4]⟩

/-- The cache state after `Remove elemA` from `stateAfterUnique`: the
element is gone from `elements` and `idToElement` but one stale copy
remains in the byName index (fixture, checked by the claim theorems). -/
def stateAfterRemove : CacheState :=
  ⟨true, [], some [("a", [elemA])], none, [], [4]⟩

/-- A listenable element (fixture for the Add/listener claim). -/
def elemL : Elem := ⟨7, .ok "x", true, some (.ok "ux")⟩

/-- A non-listenable element sharing `elemL`'s id (fixture). -/
def elemNL : Elem := ⟨7, .ok "y", false, none⟩

/-- The cache state holding `elemL` (fixture). -/
def stateWithL : CacheState := ⟨false, [elemL], none, none, [(7, elemL)], [7]⟩

/-- A 404 response with a diagnostic body (fixture). -/
def resp404 : HResponse := ⟨404, "404 Not Found", "remote diagnostic body"⟩

/-- Two elements sharing the name `a` whose unique-name generators both
produce `u` (fixture for the unique-name collision claim). -/
def elemColl1 : Elem := ⟨1, .ok "a", true, some (.ok "u")⟩

/-- Second element of the colliding pair (fixture). -/
def elemColl2 : Elem := ⟨2, .ok "a", true, some (.ok "u")⟩

/-- A fully loaded cache whose byName index groups the colliding pair
under `a` (fixture). -/
def stateColl : CacheState :=
  ⟨true, [elemColl1, elemColl2], some [("a", [elemColl1, elemColl2])], none,
   [(1, elemColl1), (2, elemColl2)], [1, 2]⟩

/-! # Theorems -/

/-! ## Claim C8: Reset discards all state and forces repagination -/

/-- Claim C8: for every cache in any state, including fully paginated,
`Reset` clears all cached elements and indexes, and the next `All` call
issues its first page request at page 0. -/
theorem c8_reset_forces_repagination (pf : PageFunc) (fuel : Nat)
    (c : CacheState) (hfuel : 0 < fuel) :
    (Reset c).foundAll = false ∧ (Reset c).elements = [] ∧
    (Reset c).nameToElements = none ∧
    (Reset c).uniqueNameToElement = none ∧
    (Reset c).idToElement = [] ∧
    (All pf fuel (Reset c)).2.head? = some 0 := by
  refine ⟨rfl, rfl, rfl, rfl, rfl, ?_⟩
  obtain ⟨n, rfl⟩ : ∃ n, fuel = n + 1 := ⟨fuel - 1, (Nat.succ_pred_eq_of_pos hfuel).symm⟩
  show (loadAllUnsafe pf (n + 1) 0 (Reset c)).2.head? = some 0
  have hfa : (Reset c).foundAll = false := rfl
  simp only [loadAllUnsafe, hfa, Bool.false_eq_true, if_false]
  split
  · simp
  · split <;> simp

/-- Witness for C8 at a concrete cache and page source. -/
theorem c8_witness :
    0 < 1 ∧
    ((Reset stateAfterUnique).foundAll = false ∧
     (Reset stateAfterUnique).elements = [] ∧
     (Reset stateAfterUnique).nameToElements = none ∧
     (Reset stateAfterUnique).uniqueNameToElement = none ∧
     (Reset stateAfterUnique).idToElement = [] ∧
     (All pfA 1 (Reset stateAfterUnique)).2.head? = some 0) :=
  ⟨Nat.one_pos, c8_reset_forces_repagination pfA 1 stateAfterUnique Nat.one_pos⟩

/-! ## Claim C9: non-2xx errors and the response body -/

/-- Counterexample to claim C9: on a non-2xx response the error returned
by the JSON-response helper carries only the status line; the response
body is not contained in the error, it is printed to standard output
instead. -/
theorem c9_counterexample :
    (DoUnmarshalJSONResponse (α := Unit) (.ok resp404)
        (fun _ => .error "unused")).1 = .error "http status: 404 Not Found" ∧
    containsSeq "http status: 404 Not Found".toList resp404.body.toList = false ∧
    (DoUnmarshalJSONResponse (α := Unit) (.ok resp404)
        (fun _ => .error "unused")).2 = [resp404.body] := by
  refine ⟨rfl, ?_, rfl⟩
  decide

/-- Amended claim C9: for every response with a non-2xx status, the
propagated error carries the HTTP status line, and the response body is
printed to standard output for diagnostics rather than attached to the
error. -/
theorem c9_amended {α : Type} (unmarshal : String → Except String α)
    (resp : HResponse) (h : resp.statusCode < 200 ∨ 300 ≤ resp.statusCode) :
    DoUnmarshalJSONResponse (.ok resp) unmarshal =
      (.error ("http status: " ++ resp.status), [resp.body]) := by
  simp only [DoUnmarshalJSONResponse, StatusError, if_pos h]

/-- Witness for the amended C9 at the concrete 404 response. -/
theorem c9_amended_witness :
    (resp404.statusCode < 200 ∨ 300 ≤ resp404.statusCode) ∧
    DoUnmarshalJSONResponse (α := Unit) (.ok resp404) (fun _ => .error "unused") =
      (.error ("http status: " ++ resp404.status), [resp404.body]) :=
  ⟨Or.inr (by decide),
   c9_amended (fun _ => .error "unused") resp404 (Or.inr (by decide))⟩

/-! ## Claim C10: Add, the listenable capability, and panics -/

/-- Counterexample to claim C10 as stated: a non-listenable element whose
id is already cached makes `Add` return normally (the early duplicate
return fires before the capability check), so it is not true that `Add`
panics for every element lacking the listenable capability. -/
theorem c10_counterexample :
    Add newCache elemL = .ok stateWithL () ∧
    elemNL.listenable = false ∧
    Add stateWithL elemNL = .ok stateWithL () := by
  decide

/-- Amended claim C10: for every element whose id is not already cached,
`Add` panics exactly when the element's dynamic type lacks the listenable
capability; when the capability is present `Add` inserts the element and
registers the cache as a deletion listener on it. -/
theorem c10_amended (c : CacheState) (e : Elem)
    (h : idLookup c.idToElement e.id = none) :
    (e.listenable = false →
      Add c e = .panicked "must implement ListenableElement") ∧
    (e.listenable = true →
      ∃ c1, Add c e = .ok c1 () ∧ e ∈ c1.elements ∧
        c1.registeredIDs = c.registeredIDs ++ [e.id]) := by
  constructor
  · intro hl
    simp only [Add, addElementUnsafe, h, Option.isSome_none, Bool.false_eq_true,
      if_false, hl]
  · intro hl
    refine ⟨{ c with
              elements := c.elements ++ [e]
              idToElement := c.idToElement ++ [(e.id, e)]
              nameToElements := none
              uniqueNameToElement := none
              registeredIDs := c.registeredIDs ++ [e.id] }, ?_, ?_, rfl⟩
    · simp only [Add, addElementUnsafe, h, Option.isSome_none, Bool.false_eq_true,
        if_false, hl, if_true]
    · simp

/-- Witness for the amended C10 at a concrete fresh element. -/
theorem c10_amended_witness :
    idLookup newCache.idToElement elemL.id = none ∧
    ((elemL.listenable = false →
        Add newCache elemL = .panicked "must implement ListenableElement") ∧
     (elemL.listenable = true →
        ∃ c1, Add newCache elemL = .ok c1 () ∧ elemL ∈ c1.elements ∧
          c1.registeredIDs = newCache.registeredIDs ++ [elemL.id])) :=
  ⟨rfl, c10_amended newCache elemL rfl⟩

/-! ## Claim C4: the byName index is either nil or fully valid

The code violates this: the trailing loop of `populateUniqueNameMapUnsafe`
(cache.go lines 280-286) re-appends every cached element to the already
populated `nameToElements`, leaving a non-nil index with duplicated
entries. -/

/-- Claim C4 evaluated at a failing input: starting from a fresh cache
over a one-element page source, `ElementsWithName` builds a valid byName
index, but the subsequent `ElementWithUniqueName` call returns
successfully with a byName index that maps `a` to the element twice —
non-nil yet invalid. -/
theorem c4_bug_eval :
    (ElementsWithName pfA 3 newCache "a").1 = .ok stateAfterName [elemA] ∧
    nameMapValid stateAfterName ∧
    (ElementWithUniqueName pfA 3 stateAfterName "a").1 =
      .ok stateAfterUnique (some elemA) ∧
    stateAfterUnique.nameToElements = some [("a", [elemA, elemA])] ∧
    ¬ nameMapValid stateAfterUnique := by
  refine ⟨by decide, ?_, by decide, rfl, ?_⟩
  · intro n
    by_cases h : n = "a"
    · subst h; decide
    · show (assocLookup [("a", [elemA])] n).getD [] = _
      rw [show assocLookup [("a", [elemA])] n = none by simp [assocLookup, Ne.symm h]]
      simp only [Option.getD_none]
      symm
      simp only [List.filter_eq_nil_iff]
      intro a ha
      have ha2 : a = elemA := by simpa [stateAfterName] using ha
      subst ha2
      simp only [elemA, decide_eq_true_eq]
      intro hh
      exact h (by injection hh with hh2; exact hh2.symm)
  · intro h
    have h2 := h "a"
    revert h2
    decide

/-! ## Claim C5: Remove leaves no stale reference in any index

The code violates this through the same stray loop: after
`ElementWithUniqueName` the byName index holds the element twice,
`Remove` deletes only the first occurrence, and a stale copy survives a
successful `Remove`. -/

/-- Claim C5 evaluated at a failing input: the state reached by `All`,
`ElementsWithName` and `ElementWithUniqueName` on a one-element page
source lets `Remove` return successfully while the byName index still
maps `a` to the removed element. -/
theorem c5_bug_eval :
    (ElementsWithName pfA 3 newCache "a").1 = .ok stateAfterName [elemA] ∧
    (ElementWithUniqueName pfA 3 stateAfterName "a").1 =
      .ok stateAfterUnique (some elemA) ∧
    Remove stateAfterUnique elemA = .ok stateAfterRemove () ∧
    stateAfterRemove.elements = [] ∧
    idLookup stateAfterRemove.idToElement elemA.id = none ∧
    stateAfterRemove.uniqueNameToElement = none ∧
    (assocLookup (stateAfterRemove.nameToElements.getD []) "a").getD []
      = [elemA] := by
  decide

/-! ## Claim C2: identity derivations -/

/-- Claim C2: the container id produced by `newContainer` is the hash of
the kind tag concatenated with the little-endian remote id (the spec-side
derivation `specContainerID`), and for every successful `AddPhoto` the
returned photo's id is the hash of the container id concatenated with the
pipeline's content hash — equal to the spec-side `specPhotoID` recomputed
independently from the same inputs. -/
theorem c2_identity (H md5fn : List Nat → List Nat) (ct : ContainerType)
    (cname uname : String) (nid : Nat) (env : UploadEnv) (p : GoPhoto)
    (hp : AddPhoto H md5fn (newContainer H ct cname nid) env uname = .ok p) :
    (newContainer H ct cname nid).id = specContainerID H ct nid ∧
    p.md5Hash = md5fn env.content ∧
    p.id = specPhotoID H (specContainerID H ct nid) (md5fn env.content) := by
  refine ⟨rfl, ?_⟩
  rcases h1 : env.photoDataRes with e | sz
  · exfalso
    simp [AddPhoto, addPhoto, h1, UErr.isDuplicate] at hp
  rcases h2 : env.tokenRes with e | tok
  · exfalso
    simp [AddPhoto, addPhoto, h1, h2, UErr.isDuplicate] at hp
  rcases h3 : env.registerIDsRes with e | ids
  · exfalso
    simp [AddPhoto, addPhoto, h1, h2, h3, UErr.isDuplicate] at hp
  rcases h4 : env.s3Res with _ | e
  case some =>
    exfalso
    simp [AddPhoto, addPhoto, h1, h2, h3, h4, UErr.isDuplicate] at hp
  by_cases hlen : ids.length = 1
  case neg =>
    exfalso
    simp [AddPhoto, addPhoto, h1, h2, h3, h4, hlen, UErr.isDuplicate] at hp
  have haddp : addPhoto md5fn env uname =
      ({ name := uname, md5Hash := md5fn env.content, size := sz },
       (monitorUpload env.monitorResp).map (UErr.wrap "addPhoto")) := by
    simp [addPhoto, h1, h2, h3, h4, hlen]
  rcases hm : monitorUpload env.monitorResp with _ | merr
  · simp [AddPhoto, haddp, hm, newPhoto] at hp
    obtain ⟨rfl⟩ := hp.symm
    exact ⟨rfl, rfl⟩
  · by_cases hdup :
      (merr.isDuplicate && decide (ct = ContainerType.playlist)) = true
    · have : ((UErr.wrap "addPhoto" merr).isDuplicate &&
          decide ((newContainer H ct cname nid).containerType =
            ContainerType.playlist)) = true := hdup
      simp [AddPhoto, haddp, hm, this, newPhoto] at hp
      obtain ⟨rfl⟩ := hp.symm
      exact ⟨rfl, rfl⟩
    · exfalso
      have : ((UErr.wrap "addPhoto" merr).isDuplicate &&
          decide ((newContainer H ct cname nid).containerType =
            ContainerType.playlist)) = false := by
        simpa using hdup
      simp [AddPhoto, haddp, hm, this] at hp

/-- Witness for C2: a concrete successful upload run through the pipeline
with an explicit hash stand-in. -/
theorem c2_identity_witness :
    AddPhoto (fun l => 0 :: l) (fun l => 1 :: l)
        (newContainer (fun l => 0 :: l) ContainerType.album "alb" 9)
        ⟨.ok 5, .ok "tok", .ok ["uid"], none, .ok ⟨200, "200 OK", "done"⟩, [2, 3]⟩
        "pic.jpg" =
      .ok ⟨0 :: (newContainer (fun l => 0 :: l) ContainerType.album "alb" 9).id
            ++ [1, 2, 3], [1, 2, 3], "pic.jpg", 0, 5, ""⟩ ∧
    ((newContainer (fun l => 0 :: l) ContainerType.album "alb" 9).id =
        specContainerID (fun l => 0 :: l) ContainerType.album 9 ∧
      ([1, 2, 3] : List Nat) = (fun l => (1 : Nat) :: l) [2, 3] ∧
      (0 :: (newContainer (fun l => 0 :: l) ContainerType.album "alb" 9).id
          ++ [1, 2, 3]) =
        specPhotoID (fun l => 0 :: l)
          (specContainerID (fun l => 0 :: l) ContainerType.album 9)
          ((fun l => (1 : Nat) :: l) [2, 3])) := by
  have h : AddPhoto (fun l => 0 :: l) (fun l => 1 :: l)
      (newContainer (fun l => 0 :: l) ContainerType.album "alb" 9)
      ⟨.ok 5, .ok "tok", .ok ["uid"], none, .ok ⟨200, "200 OK", "done"⟩, [2, 3]⟩
      "pic.jpg" =
      .ok ⟨0 :: (newContainer (fun l => 0 :: l) ContainerType.album "alb" 9).id
            ++ [1, 2, 3], [1, 2, 3], "pic.jpg", 0, 5, ""⟩ := by decide
  refine ⟨h, ?_⟩
  have h2 := c2_identity (fun l => 0 :: l) (fun l => 1 :: l)
    ContainerType.album "alb" "pic.jpg" 9
    ⟨.ok 5, .ok "tok", .ok ["uid"], none, .ok ⟨200, "200 OK", "done"⟩, [2, 3]⟩
    _ h
  exact h2

/-! ## Claim C3: duplicate-content tolerance in AddPhoto -/

/-- Claim C3: when every pipeline step before the monitor succeeds, a
duplicate-content monitor response is tolerated (AddPhoto succeeds and
returns the photo) exactly when the container is a playlist; every other
monitor failure, and the album case of a duplicate, makes AddPhoto return
an error. -/
theorem c3_duplicate_tolerance (H md5fn : List Nat → List Nat)
    (g : GoContainer) (env : UploadEnv) (uname : String) (sz : Nat)
    (tok uid : String)
    (h1 : env.photoDataRes = .ok sz) (h2 : env.tokenRes = .ok tok)
    (h3 : env.registerIDsRes = .ok [uid]) (h4 : env.s3Res = none) :
    (monitorUpload env.monitorResp = none →
      ∃ p, AddPhoto H md5fn g env uname = .ok p) ∧
    (∀ resp, env.monitorResp = .ok resp → resp.statusCode = 400 →
      resp.body = "Error: image-exists" →
      ((∃ p, AddPhoto H md5fn g env uname = .ok p ∧
          p.md5Hash = md5fn env.content) ↔
        g.containerType = ContainerType.playlist)) ∧
    (∀ e, monitorUpload env.monitorResp = some e → e.isDuplicate = false →
      ∃ err, AddPhoto H md5fn g env uname = .error err) := by
  have haddp : addPhoto md5fn env uname =
      ({ name := uname, md5Hash := md5fn env.content, size := sz },
       (monitorUpload env.monitorResp).map (UErr.wrap "addPhoto")) := by
    simp [addPhoto, h1, h2, h3, h4]
  refine ⟨?_, ?_, ?_⟩
  · intro hmon
    refine ⟨{ id := H (g.id ++ md5fn env.content), md5Hash := md5fn env.content,
              name := uname, nixplayID := 0, size := sz, url := "" }, ?_⟩
    simp [AddPhoto, haddp, hmon, newPhoto]
  · intro resp hresp h400 hbody
    have hm : monitorUpload env.monitorResp =
        some (.wrap "monitorUpload" .duplicateImage) := by
      simp [monitorUpload, hresp, h400, hbody]
    cases hct : g.containerType with
    | playlist =>
      apply iff_of_true ?_ rfl
      refine ⟨{ id := H (g.id ++ md5fn env.content), md5Hash := md5fn env.content,
                name := uname, nixplayID := 0, size := sz, url := "" }, ?_, rfl⟩
      have hcond : ((UErr.wrap "addPhoto"
          (UErr.wrap "monitorUpload" UErr.duplicateImage)).isDuplicate &&
          decide (g.containerType = ContainerType.playlist)) = true := by
        simp [UErr.isDuplicate, hct]
      simp [AddPhoto, haddp, hm, hcond, newPhoto]
    | album =>
      apply iff_of_false ?_ (by decide)
      rintro ⟨p, hp, _⟩
      have hcond : ((UErr.wrap "addPhoto"
          (UErr.wrap "monitorUpload" UErr.duplicateImage)).isDuplicate &&
          decide (g.containerType = ContainerType.playlist)) = false := by
        simp [hct]
      simp [AddPhoto, haddp, hm, hcond] at hp
  · intro e hm hdup
    have hcond : ((UErr.wrap "addPhoto" e).isDuplicate &&
        decide (g.containerType = ContainerType.playlist)) = false := by
      simp [UErr.isDuplicate, hdup]
    refine ⟨.wrap "AddPhoto" (.wrap "addPhoto" e), ?_⟩
    simp [AddPhoto, haddp, hm, hcond]

/-- Witness for C3: concrete playlist upload with a duplicate-content
monitor response; the theorem instance shows the duplicate is tolerated
exactly for the playlist container. -/
theorem c3_duplicate_tolerance_witness :
    ((⟨.ok 5, .ok "tok", .ok ["uid"], none,
        .ok ⟨400, "400 Bad Request", "Error: image-exists"⟩,
        [2, 3]⟩ : UploadEnv).photoDataRes = .ok 5) ∧
    (∀ resp,
      (⟨.ok 5, .ok "tok", .ok ["uid"], none,
        .ok ⟨400, "400 Bad Request", "Error: image-exists"⟩,
        [2, 3]⟩ : UploadEnv).monitorResp = .ok resp →
      resp.statusCode = 400 → resp.body = "Error: image-exists" →
      ((∃ p, AddPhoto (fun l => 0 :: l) (fun l => 1 :: l)
          ⟨ContainerType.playlist, "pl", [9], 9⟩
          ⟨.ok 5, .ok "tok", .ok ["uid"], none,
           .ok ⟨400, "400 Bad Request", "Error: image-exists"⟩, [2, 3]⟩
          "pic.jpg" = .ok p ∧
          p.md5Hash = (fun l => (1 : Nat) :: l) [2, 3]) ↔
        (⟨ContainerType.playlist, "pl", [9], 9⟩ : GoContainer).containerType =
          ContainerType.playlist)) :=
  ⟨rfl,
   (c3_duplicate_tolerance (fun l => 0 :: l) (fun l => 1 :: l)
      ⟨ContainerType.playlist, "pl", [9], 9⟩
      ⟨.ok 5, .ok "tok", .ok ["uid"], none,
       .ok ⟨400, "400 Bad Request", "Error: image-exists"⟩, [2, 3]⟩
      "pic.jpg" 5 "tok" "uid" rfl rfl rfl rfl).2.1⟩

/-! ## Claim C1: pagination termination, de-duplication, idempotence -/

/-- A fully loaded cache answers without touching the page source. -/
theorem loadAllUnsafe_foundAll (pf : PageFunc) (fuel page : Nat)
    (c : CacheState) (h : c.foundAll = true) :
    loadAllUnsafe pf fuel page c = (.ok c (), []) := by
  cases fuel <;> simp [loadAllUnsafe, h]

/-- Appending a fresh binding to the id map extends exactly its domain. -/
theorem idLookup_append_isSome (m : List (Nat × Elem)) (k : Nat) (v : Elem)
    (i : Nat) :
    (idLookup (m ++ [(k, v)]) i).isSome = true ↔
      (idLookup m i).isSome = true ∨ i = k := by
  induction m with
  | nil =>
    by_cases h : k = i
    · subst h; simp [idLookup]
    · have h2 : ¬ i = k := fun hh => h hh.symm
      simp [idLookup, h, h2]
  | cons p t ih =>
    by_cases h : p.1 = i
    · simp [idLookup, h]
    · simpa [idLookup, h] using ih

/-- An element whose id is already cached is silently skipped. -/
theorem addElementUnsafe_dup (c : CacheState) (e : Elem)
    (h : (idLookup c.idToElement e.id).isSome = true) :
    addElementUnsafe c e = .ok c () := by
  simp [addElementUnsafe, h]

/-- A fresh listenable element is appended, indexed, and the derived name
indexes are invalidated. -/
theorem addElementUnsafe_fresh (c : CacheState) (e : Elem)
    (h : (idLookup c.idToElement e.id).isSome = false)
    (hl : e.listenable = true) :
    addElementUnsafe c e = .ok { c with
      elements := c.elements ++ [e]
      idToElement := c.idToElement ++ [(e.id, e)]
      nameToElements := none
      uniqueNameToElement := none
      registeredIDs := c.registeredIDs ++ [e.id] } () := by
  simp [addElementUnsafe, h, hl]

/-- Adding a page of listenable elements succeeds and de-duplicates by id:
old elements survive, every new element comes from the page, every page
element's id becomes represented, and distinctness of cached ids is
preserved. -/
theorem addAllUnsafe_ok (l : List Elem) :
    ∀ c : CacheState, (∀ e ∈ l, e.listenable = true) → idIndexConsistent c →
    ∃ c1, addAllUnsafe c l = .ok c1 () ∧ idIndexConsistent c1 ∧
      c1.foundAll = c.foundAll ∧
      (∀ x ∈ c.elements, x ∈ c1.elements) ∧
      (∀ x ∈ c1.elements, x ∈ c.elements ∨ x ∈ l) ∧
      (∀ e ∈ l, ∃ x ∈ c1.elements, x.id = e.id) ∧
      ((c.elements.map Elem.id).Nodup → (c1.elements.map Elem.id).Nodup) := by
  induction l with
  | nil =>
    intro c _ hinv
    exact ⟨c, rfl, hinv, rfl, fun x hx => hx, fun x hx => Or.inl hx,
      by simp, fun h => h⟩
  | cons e rest ih =>
    intro c hl hinv
    by_cases hdup : (idLookup c.idToElement e.id).isSome = true
    · obtain ⟨c1, heq, hinv1, hfa, hmono, hsub, hids, hnd⟩ :=
        ih c (fun x hx => hl x (List.mem_cons_of_mem _ hx)) hinv
      refine ⟨c1, ?_, hinv1, hfa, hmono,
        fun x hx => (hsub x hx).imp id (List.mem_cons_of_mem _), ?_, hnd⟩
      · show (match addElementUnsafe c e with
              | .ok c1 _ => addAllUnsafe c1 rest
              | r => r) = .ok c1 ()
        rw [addElementUnsafe_dup c e hdup]
        exact heq
      · intro e2 he2
        rcases List.mem_cons.mp he2 with rfl | he2
        · have hmem : e2.id ∈ c.elements.map Elem.id := (hinv e2.id).mp hdup
          obtain ⟨x, hx, hxid⟩ := List.mem_map.mp hmem
          exact ⟨x, hmono x hx, hxid⟩
        · exact hids e2 he2
    · have hdup2 : (idLookup c.idToElement e.id).isSome = false := by
        simpa using hdup
      have hnotmem : e.id ∉ c.elements.map Elem.id := by
        intro hmem
        rw [← hinv e.id] at hmem
        simp [hmem] at hdup2
      have hinv2 : idIndexConsistent { c with
          elements := c.elements ++ [e]
          idToElement := c.idToElement ++ [(e.id, e)]
          nameToElements := none
          uniqueNameToElement := none
          registeredIDs := c.registeredIDs ++ [e.id] } := by
        intro i
        show (idLookup (c.idToElement ++ [(e.id, e)]) i).isSome = true ↔
          i ∈ (c.elements ++ [e]).map Elem.id
        rw [idLookup_append_isSome, hinv i]
        simp
      obtain ⟨c1, heq, hinv1, hfa, hmono, hsub, hids, hnd⟩ :=
        ih _ (fun x hx => hl x (List.mem_cons_of_mem _ hx)) hinv2
      refine ⟨c1, ?_, hinv1, hfa, ?_, ?_, ?_, ?_⟩
      · show (match addElementUnsafe c e with
              | .ok c1 _ => addAllUnsafe c1 rest
              | r => r) = .ok c1 ()
        rw [addElementUnsafe_fresh c e hdup2 (hl e (List.mem_cons_self e rest))]
        exact heq
      · intro x hx
        exact hmono x (by simp [hx])
      · intro x hx
        rcases hsub x hx with hx2 | hx2
        · rcases List.mem_append.mp hx2 with hx3 | hx3
          · exact Or.inl hx3
          · exact Or.inr (by simpa using Or.inl (List.mem_singleton.mp hx3))
        · exact Or.inr (List.mem_cons_of_mem _ hx2)
      · intro e2 he2
        rcases List.mem_cons.mp he2 with rfl | he2
        · exact ⟨e2, hmono e2 (by simp), rfl⟩
        · exact hids e2 he2
      · intro hndc
        apply hnd
        show ((c.elements ++ [e]).map Elem.id).Nodup
        rw [List.map_append]
        simp [List.nodup_append, hndc, hnotmem]

/-- The page-walk of `loadAllUnsafe`: when pages `page ‥ page+k-1` are
non-empty and page `page+k` is empty, the walk requests exactly those
`k+1` pages in order, terminates with `foundAll`, keeps every old
element, draws every new element from the walked pages, represents every
walked element's id, and preserves distinctness of cached ids. -/
theorem loadAllUnsafe_walk (pf : PageFunc) (k : Nat) :
    ∀ fuel page : Nat, ∀ c : CacheState, c.foundAll = false →
    idIndexConsistent c →
    (∀ j, j < k → ∃ l, pf (page + j) = .ok l ∧ l ≠ [] ∧
      ∀ e ∈ l, e.listenable = true) →
    pf (page + k) = .ok [] → k < fuel →
    ∃ c1, loadAllUnsafe pf fuel page c = (.ok c1 (), List.range' page (k + 1)) ∧
      c1.foundAll = true ∧ idIndexConsistent c1 ∧
      (∀ x ∈ c.elements, x ∈ c1.elements) ∧
      (∀ x ∈ c1.elements, x ∈ c.elements ∨
        ∃ j, j < k ∧ ∃ l, pf (page + j) = .ok l ∧ x ∈ l) ∧
      (∀ j, j < k → ∀ l, pf (page + j) = .ok l →
        ∀ e ∈ l, ∃ x ∈ c1.elements, x.id = e.id) ∧
      ((c.elements.map Elem.id).Nodup → (c1.elements.map Elem.id).Nodup) := by
  induction k with
  | zero =>
    intro fuel page c hfa hinv _ hk hfuel
    obtain ⟨f, rfl⟩ : ∃ f, fuel = f + 1 :=
      ⟨fuel - 1, (Nat.succ_pred_eq_of_pos hfuel).symm⟩
    rw [Nat.add_zero] at hk
    refine ⟨{ c with foundAll := true }, ?_, rfl, hinv, fun x hx => hx,
      fun x hx => Or.inl hx, by omega, fun h => h⟩
    show (if c.foundAll = true then ((.ok c (), []) : CRes Unit × List Nat)
          else _) = _
    rw [if_neg (by simp [hfa])]
    simp only [hk]
    have : addAllUnsafe { c with foundAll := true } [] =
        .ok { c with foundAll := true } () := rfl
    simp only [List.isEmpty_nil, if_true, this,
      loadAllUnsafe_foundAll pf f (page + 1) { c with foundAll := true } rfl]
    rfl
  | succ k ih =>
    intro fuel page c hfa hinv hprev hk hfuel
    obtain ⟨f, rfl⟩ : ∃ f, fuel = f + 1 :=
      ⟨fuel - 1, (Nat.succ_pred_eq_of_pos (Nat.lt_of_le_of_lt (Nat.zero_le _) hfuel)).symm⟩
    obtain ⟨l0, hl0, hl0ne, hl0lis⟩ := hprev 0 (Nat.succ_pos k)
    rw [Nat.add_zero] at hl0
    obtain ⟨c2, haddeq, hinv2, hfa2, hmono2, hsub2, hids2, hnd2⟩ :=
      addAllUnsafe_ok l0 c hl0lis hinv
    have hshift : ∀ j, j < k → ∃ l, pf (page + 1 + j) = .ok l ∧ l ≠ [] ∧
        ∀ e ∈ l, e.listenable = true := by
      intro j hj
      have := hprev (j + 1) (by omega)
      rwa [show page + (j + 1) = page + 1 + j by omega] at this
    have hk2 : pf (page + 1 + k) = .ok [] := by
      rwa [show page + 1 + k = page + (k + 1) by omega]
    obtain ⟨c3, hrec, hfa3, hinv3, hmono3, hsub3, hids3, hnd3⟩ :=
      ih f (page + 1) c2 (hfa2.trans hfa) hinv2 hshift hk2 (by omega)
    refine ⟨c3, ?_, hfa3, hinv3, ?_, ?_, ?_, ?_⟩
    · show (if c.foundAll = true then ((.ok c (), []) : CRes Unit × List Nat)
            else _) = _
      rw [if_neg (by simp [hfa])]
      simp only [hl0]
      rw [if_neg (by simp [List.isEmpty_iff, hl0ne])]
      simp only [haddeq, hrec]
      rfl
    · intro x hx
      exact hmono3 x (hmono2 x hx)
    · intro x hx
      rcases hsub3 x hx with hx2 | ⟨j, hj, l, hpl, hxl⟩
      · rcases hsub2 x hx2 with hx3 | hx3
        · exact Or.inl hx3
        · exact Or.inr ⟨0, Nat.succ_pos k, l0, by rwa [Nat.add_zero], hx3⟩
      · refine Or.inr ⟨j + 1, by omega, l, ?_, hxl⟩
        rwa [show page + (j + 1) = page + 1 + j by omega]
    · intro j hj l hpl e he
      rcases Nat.eq_zero_or_pos j with rfl | hjpos
      · rw [Nat.add_zero] at hpl
        rw [hpl] at hl0
        obtain rfl : l = l0 := by injection hl0
        obtain ⟨x, hx, hxid⟩ := hids2 e he
        exact ⟨x, hmono3 x hx, hxid⟩
      · obtain ⟨j2, rfl⟩ : ∃ j2, j = j2 + 1 := ⟨j - 1, by omega⟩
        refine hids3 j2 (by omega) l ?_ e he
        rwa [show page + 1 + j2 = page + (j2 + 1) by omega]
    · intro hndc
      exact hnd3 (hnd2 hndc)

/-- Claim C1: over a fresh cache, if pages `0 ‥ k-1` are non-empty (their
elements listenable, as every element type of the repository is) and page
`k` is empty, then `All` requests exactly pages `0 ‥ k` (never one beyond
`k`), returns the union of pages `0 ‥ k-1` with already-seen ids silently
de-duplicated, and a second `All` with no intervening `Add` or `Remove`
issues zero page requests and returns the same element set. -/
theorem c1_pagination_idempotence (pf : PageFunc) (k fuel : Nat)
    (hprev : ∀ j, j < k → ∃ l, pf j = .ok l ∧ l ≠ [] ∧
      ∀ e ∈ l, e.listenable = true)
    (hk : pf k = .ok []) (hfuel : k < fuel) :
    ∃ c1, All pf fuel newCache = (.ok c1 c1.elements, List.range' 0 (k + 1)) ∧
      (∀ q ∈ (All pf fuel newCache).2, q ≤ k) ∧
      (c1.elements.map Elem.id).Nodup ∧
      (∀ x ∈ c1.elements, ∃ j, j < k ∧ ∃ l, pf j = .ok l ∧ x ∈ l) ∧
      (∀ j, j < k → ∀ l, pf j = .ok l → ∀ e ∈ l,
        ∃ x ∈ c1.elements, x.id = e.id) ∧
      (∀ fuel2, All pf fuel2 c1 = (.ok c1 c1.elements, [])) := by
  have hinv0 : idIndexConsistent newCache := by
    intro i
    simp [newCache, idLookup]
  obtain ⟨c1, heq, hfa1, hinv1, _, hsub1, hids1, hnd1⟩ :=
    loadAllUnsafe_walk pf k fuel 0 newCache rfl hinv0
      (by simpa using hprev) (by simpa using hk) hfuel
  have hAll : All pf fuel newCache =
      (.ok c1 c1.elements, List.range' 0 (k + 1)) := by
    simp only [All, heq]
    rfl
  refine ⟨c1, hAll, ?_, ?_, ?_, ?_, ?_⟩
  · intro q hq
    rw [hAll] at hq
    have := List.mem_range'_1.mp hq
    omega
  · exact hnd1 (by simp [newCache])
  · intro x hx
    rcases hsub1 x hx with hx2 | ⟨j, hj, l, hpl, hxl⟩
    · simp [newCache] at hx2
    · exact ⟨j, hj, l, by simpa using hpl, hxl⟩
  · intro j hj l hpl e he
    exact hids1 j hj l (by simpa using hpl) e he
  · intro fuel2
    simp only [All, loadAllUnsafe_foundAll pf fuel2 0 c1 hfa1]
    rfl

/-- Witness for C1 on a concrete two-page source (one element on page 0,
empty page 1). -/
theorem c1_pagination_idempotence_witness :
    ∃ c1, All pfA 3 newCache = (.ok c1 c1.elements, List.range' 0 2) ∧
      (∀ q ∈ (All pfA 3 newCache).2, q ≤ 1) ∧
      (c1.elements.map Elem.id).Nodup ∧
      (∀ x ∈ c1.elements, ∃ j, j < 1 ∧ ∃ l, pfA j = .ok l ∧ x ∈ l) ∧
      (∀ j, j < 1 → ∀ l, pfA j = .ok l → ∀ e ∈ l,
        ∃ x ∈ c1.elements, x.id = e.id) ∧
      (∀ fuel2, All pfA fuel2 c1 = (.ok c1 c1.elements, [])) := by
  refine c1_pagination_idempotence pfA 1 3 ?_ (by decide) (by decide)
  intro j hj
  obtain rfl : j = 0 := by omega
  exact ⟨[elemA], rfl, by decide, by decide⟩

/-! ## Claim C6: building the unique-name index -/

/-- A key has a binding exactly when it occurs among the map's keys. -/
theorem assocLookup_isSome_iff {α : Type} (m : List (String × α)) (k : String) :
    (assocLookup m k).isSome = true ↔ k ∈ m.map Prod.fst := by
  induction m with
  | nil => simp [assocLookup]
  | cons p t ih =>
    by_cases h : p.1 = k
    · simp [assocLookup, h]
    · have h2 : ¬ k = p.1 := fun hh => h hh.symm
      simp [assocLookup, h, h2, ih]

/-- Writing a key makes it readable. -/
theorem assocSet_lookup_self {α : Type} (m : List (String × α)) (k : String)
    (v : α) : assocLookup (assocSet m k v) k = some v := by
  induction m with
  | nil => simp [assocSet, assocLookup]
  | cons p t ih =>
    by_cases h : p.1 = k
    · simp [assocSet, assocLookup, h]
    · simp [assocSet, assocLookup, h, ih]

/-- Writing one key leaves other keys' bindings unchanged. -/
theorem assocSet_lookup_ne {α : Type} (m : List (String × α)) (k1 k : String)
    (v : α) (h : ¬ k1 = k) :
    assocLookup (assocSet m k1 v) k = assocLookup m k := by
  induction m with
  | nil => simp [assocSet, assocLookup, h]
  | cons p t ih =>
    have h4 : ¬ k = k1 := fun hh => h hh.symm
    by_cases h2 : p.1 = k1
    · simp [assocSet, assocLookup, h2, h, h4]
    · by_cases h3 : p.1 = k
      · simp [assocSet, assocLookup, h2, h3, h4]
      · simp [assocSet, assocLookup, h2, h3, h4, ih]

/-- The keys after a write are the old keys plus the written key. -/
theorem assocSet_keys_mem {α : Type} (m : List (String × α)) (k x : String)
    (v : α) :
    x ∈ (assocSet m k v).map Prod.fst ↔ x ∈ m.map Prod.fst ∨ x = k := by
  induction m with
  | nil => simp [assocSet]
  | cons p t ih =>
    by_cases h : p.1 = k
    · subst h
      rw [show assocSet (p :: t) p.1 v = (p.1, v) :: t from by simp [assocSet]]
      simp only [List.map_cons, List.mem_cons]
      tauto
    · rw [show assocSet (p :: t) k v = (p.1, p.2) :: assocSet t k v from by
        simp [assocSet, h]]
      simp only [List.map_cons, List.mem_cons, ih]
      tauto

/-- `genOf` reads exactly the successful generation outcomes. -/
theorem genOf_eq_some (e : Elem) (u : String) :
    genOf e = some u ↔ e.uniqueGen = some (.ok u) := by
  rcases hg : e.uniqueGen with _ | eg
  · simp [genOf, hg]
  · rcases eg with err | u0
    · simp [genOf, hg]
    · simp [genOf, hg]

/-- Processing a collision group only grows the set of unique names. -/
theorem insertUniqueGroup_ok_keys (es : List Elem) :
    ∀ acc acc1, insertUniqueGroup acc es = .ok acc1 →
    ∀ x ∈ acc.map Prod.fst, x ∈ acc1.map Prod.fst := by
  induction es with
  | nil =>
    intro acc acc1 h x hx
    obtain rfl : acc = acc1 := by injection h
    exact hx
  | cons e rest ih =>
    intro acc acc1 h x hx
    rcases hg : e.uniqueGen with _ | eg
    · simp only [insertUniqueGroup, hg] at h
      cases h
    · rcases eg with err | u
      · simp only [insertUniqueGroup, hg] at h
        cases h
      · simp only [insertUniqueGroup, hg] at h
        split at h
        · cases h
        · exact ih _ _ h x ((assocSet_keys_mem acc u x e).mpr (Or.inl hx))

/-- Processing a collision group never changes an existing binding. -/
theorem insertUniqueGroup_ok_preserves (es : List Elem) :
    ∀ acc acc1 k v, insertUniqueGroup acc es = .ok acc1 →
    assocLookup acc k = some v → assocLookup acc1 k = some v := by
  induction es with
  | nil =>
    intro acc acc1 k v h hk
    obtain rfl : acc = acc1 := by injection h
    exact hk
  | cons e rest ih =>
    intro acc acc1 k v h hk
    rcases hg : e.uniqueGen with _ | eg
    · simp only [insertUniqueGroup, hg] at h
      cases h
    · rcases eg with err | u
      · simp only [insertUniqueGroup, hg] at h
        cases h
      · simp only [insertUniqueGroup, hg] at h
        split at h
        · cases h
        · rename_i hguard
          have hne : ¬ u = k := by
            intro hh
            subst hh
            simp [hk] at hguard
          exact ih _ _ k v h (by rw [assocSet_lookup_ne acc u k e hne]; exact hk)

/-- After a successful group pass, every member's generated name is a key
of the unique-name map. -/
theorem insertUniqueGroup_ok_gen (es : List Elem) :
    ∀ acc acc1, insertUniqueGroup acc es = .ok acc1 →
    ∀ e ∈ es, ∀ u, e.uniqueGen = some (.ok u) → u ∈ acc1.map Prod.fst := by
  induction es with
  | nil =>
    intro acc acc1 _ e he
    cases he
  | cons e0 rest ih =>
    intro acc acc1 h e he u hgen
    rcases List.mem_cons.mp he with rfl | he2
    · simp only [insertUniqueGroup, hgen] at h
      split at h
      · cases h
      · exact insertUniqueGroup_ok_keys rest _ _ h u
          ((assocSet_keys_mem acc u u e).mpr (Or.inr rfl))
    · rcases hg : e0.uniqueGen with _ | eg
      · simp only [insertUniqueGroup, hg] at h
        cases h
      · rcases eg with err | u0
        · simp only [insertUniqueGroup, hg] at h
          cases h
        · simp only [insertUniqueGroup, hg] at h
          split at h
          · cases h
          · exact ih _ _ h e he2 u hgen

/-- A collision-group member lacking the generator capability makes the
group pass fail, whatever came before it. -/
theorem insertUniqueGroup_err_nogen (es : List Elem) (e : Elem)
    (he : e ∈ es) (hg : e.uniqueGen = none) :
    ∀ acc, ∃ err, insertUniqueGroup acc es = .error err := by
  induction es with
  | nil => cases he
  | cons e0 rest ih =>
    intro acc
    rcases List.mem_cons.mp he with rfl | he2
    · exact ⟨_, by rw [insertUniqueGroup, hg]⟩
    · rcases hg0 : e0.uniqueGen with _ | eg
      · exact ⟨_, by rw [insertUniqueGroup, hg0]⟩
      · rcases eg with err | u0
        · exact ⟨_, by rw [insertUniqueGroup, hg0]⟩
        · by_cases hguard : (assocLookup acc u0).isSome = true
          · refine ⟨"multiple elements with the unique name " ++ u0 ++ " exist", ?_⟩
            simp only [insertUniqueGroup, hg0]
            rw [if_pos hguard]
          · obtain ⟨err, herr⟩ := ih he2 (assocSet acc u0 e0)
            refine ⟨err, ?_⟩
            simp only [insertUniqueGroup, hg0]
            rw [if_neg hguard]
            exact herr

/-- A member generating a name that is already a key makes the group pass
fail. -/
theorem insertUniqueGroup_err_dup (es : List Elem) :
    ∀ acc u, u ∈ acc.map Prod.fst →
    (∃ e ∈ es, e.uniqueGen = some (.ok u)) →
    ∃ err, insertUniqueGroup acc es = .error err := by
  induction es with
  | nil =>
    rintro acc u hu ⟨e, he, _⟩
    cases he
  | cons e0 rest ih =>
    rintro acc u hu ⟨e, he, hgen⟩
    rcases hg0 : e0.uniqueGen with _ | eg
    · exact ⟨_, by rw [insertUniqueGroup, hg0]⟩
    · rcases eg with err | u0
      · exact ⟨_, by rw [insertUniqueGroup, hg0]⟩
      · by_cases hguard : (assocLookup acc u0).isSome = true
        · refine ⟨"multiple elements with the unique name " ++ u0 ++ " exist", ?_⟩
          simp only [insertUniqueGroup, hg0]
          rw [if_pos hguard]
        · have he2 : e ∈ rest := by
            rcases List.mem_cons.mp he with rfl | he2
            · exfalso
              rw [hg0] at hgen
              obtain rfl : u0 = u := by
                injection hgen with hh
                injection hh
              rw [(assocLookup_isSome_iff acc u0).mpr hu] at hguard
              exact hguard rfl
            · exact he2
          obtain ⟨err, herr⟩ := ih (assocSet acc u0 e0) u
            ((assocSet_keys_mem acc u0 u e0).mpr (Or.inl hu)) ⟨e, he2, hgen⟩
          refine ⟨err, ?_⟩
          simp only [insertUniqueGroup, hg0]
          rw [if_neg hguard]
          exact herr

/-- Two generation occurrences of the same name inside one collision group
make the group pass fail. -/
theorem insertUniqueGroup_err_dup2 (es : List Elem) :
    ∀ acc u, 2 ≤ (groupGenNames es).count u →
    ∃ err, insertUniqueGroup acc es = .error err := by
  induction es with
  | nil =>
    intro acc u hcount
    simp [groupGenNames] at hcount
  | cons e0 rest ih =>
    intro acc u hcount
    rcases hg0 : e0.uniqueGen with _ | eg
    · exact ⟨_, by rw [insertUniqueGroup, hg0]⟩
    · rcases eg with err | u0
      · exact ⟨_, by rw [insertUniqueGroup, hg0]⟩
      · by_cases hguard : (assocLookup acc u0).isSome = true
        · refine ⟨"multiple elements with the unique name " ++ u0 ++ " exist", ?_⟩
          simp only [insertUniqueGroup, hg0]
          rw [if_pos hguard]
        · have hgo : genOf e0 = some u0 := (genOf_eq_some e0 u0).mpr hg0
          have hcount2 : (groupGenNames (e0 :: rest)).count u =
              (if u0 = u then 1 else 0) + (groupGenNames rest).count u := by
            simp only [groupGenNames, List.filterMap_cons, hgo]
            by_cases hh : u0 = u
            · subst hh
              simp [List.count_cons]
              omega
            · have hh2 : ¬ (u == u0) = true := by
                simp only [beq_iff_eq]
                exact fun hc => hh hc.symm
              simp [List.count_cons, hh, hh2]
          rw [hcount2] at hcount
          by_cases hu0 : u0 = u
          · subst hu0
            rw [if_pos rfl] at hcount
            have hrest : 1 ≤ (groupGenNames rest).count u0 := by omega
            have hmem : u0 ∈ groupGenNames rest := by
              exact List.count_pos_iff.mp (by omega)
            obtain ⟨e, he, hgo2⟩ := List.mem_filterMap.mp hmem
            obtain ⟨err, herr⟩ := insertUniqueGroup_err_dup rest
              (assocSet acc u0 e0) u0
              ((assocSet_keys_mem acc u0 u0 e0).mpr (Or.inr rfl))
              ⟨e, he, (genOf_eq_some e u0).mp hgo2⟩
            refine ⟨err, ?_⟩
            simp only [insertUniqueGroup, hg0]
            rw [if_neg hguard]
            exact herr
          · have hrest : 2 ≤ (groupGenNames rest).count u := by
              rw [if_neg hu0] at hcount
              omega
            obtain ⟨err, herr⟩ := ih (assocSet acc u0 e0) u hrest
            refine ⟨err, ?_⟩
            simp only [insertUniqueGroup, hg0]
            rw [if_neg hguard]
            exact herr

/-- Processing the byName index only grows the unique-name keys. -/
theorem buildUniqueMap_ok_keys (m : List (String × List Elem)) :
    ∀ acc um, buildUniqueMap m acc = .ok um →
    ∀ x ∈ acc.map Prod.fst, x ∈ um.map Prod.fst := by
  induction m with
  | nil =>
    intro acc um h x hx
    obtain rfl : acc = um := by injection h
    exact hx
  | cons g rest ih =>
    intro acc um h x hx
    obtain ⟨n0, es0⟩ := g
    rcases es0 with _ | ⟨e1, tl⟩
    · simp only [buildUniqueMap, insertUniqueGroup] at h
      exact ih _ _ h x hx
    · rcases tl with _ | ⟨e2, tl2⟩
      · simp only [buildUniqueMap] at h
        exact ih _ _ h x ((assocSet_keys_mem acc n0 x e1).mpr (Or.inl hx))
      · simp only [buildUniqueMap] at h
        cases hins : insertUniqueGroup acc (e1 :: e2 :: tl2) with
        | error err =>
          simp only [hins] at h
          cases h
        | ok acc1 =>
          simp only [hins] at h
          exact ih _ _ h x (insertUniqueGroup_ok_keys _ _ _ hins x hx)

/-- Processing the byName index never changes a binding whose key is not
one of the remaining group names. -/
theorem buildUniqueMap_ok_preserves (m : List (String × List Elem)) :
    ∀ acc um k v, buildUniqueMap m acc = .ok um →
    assocLookup acc k = some v → k ∉ m.map Prod.fst →
    assocLookup um k = some v := by
  induction m with
  | nil =>
    intro acc um k v h hk _
    obtain rfl : acc = um := by injection h
    exact hk
  | cons g rest ih =>
    intro acc um k v h hk hnk
    obtain ⟨n0, es0⟩ := g
    have hnn : ¬ n0 = k := fun hh => hnk (by simp [hh])
    have hnrest : k ∉ rest.map Prod.fst := fun hh => hnk (by simp [hh])
    rcases es0 with _ | ⟨e1, tl⟩
    · simp only [buildUniqueMap, insertUniqueGroup] at h
      exact ih _ _ k v h hk hnrest
    · rcases tl with _ | ⟨e2, tl2⟩
      · simp only [buildUniqueMap] at h
        exact ih _ _ k v h
          (by rw [assocSet_lookup_ne acc n0 k e1 hnn]; exact hk) hnrest
      · simp only [buildUniqueMap] at h
        cases hins : insertUniqueGroup acc (e1 :: e2 :: tl2) with
        | error err =>
          simp only [hins] at h
          cases h
        | ok acc1 =>
          simp only [hins] at h
          exact ih _ _ k v h
            (insertUniqueGroup_ok_preserves _ _ _ k v hins hk) hnrest

/-- A collision group with a member lacking the generator capability makes
the whole index build fail. -/
theorem buildUniqueMap_err_nogen (m : List (String × List Elem)) :
    ∀ n es e, (n, es) ∈ m → es.length ≠ 1 → e ∈ es → e.uniqueGen = none →
    ∀ acc, ∃ err, buildUniqueMap m acc = .error err := by
  induction m with
  | nil =>
    intro n es e hmem
    cases hmem
  | cons g rest ih =>
    intro n es e hmem hlen he hg acc
    rcases List.mem_cons.mp hmem with heq | hmem2
    · obtain rfl := heq.symm
      rcases es with _ | ⟨e1, tl⟩
      · cases he
      · rcases tl with _ | ⟨e2, tl2⟩
        · exact absurd rfl hlen
        · obtain ⟨err, herr⟩ :=
            insertUniqueGroup_err_nogen (e1 :: e2 :: tl2) e he hg acc
          exact ⟨err, by simp only [buildUniqueMap, herr]⟩
    · obtain ⟨n0, es0⟩ := g
      rcases es0 with _ | ⟨e1, tl⟩
      · obtain ⟨err, herr⟩ := ih n es e hmem2 hlen he hg acc
        exact ⟨err, by simp only [buildUniqueMap, insertUniqueGroup]; exact herr⟩
      · rcases tl with _ | ⟨e2, tl2⟩
        · obtain ⟨err, herr⟩ := ih n es e hmem2 hlen he hg (assocSet acc n0 e1)
          exact ⟨err, by simp only [buildUniqueMap]; exact herr⟩
        · cases hins : insertUniqueGroup acc (e1 :: e2 :: tl2) with
          | error err => exact ⟨err, by simp only [buildUniqueMap, hins]⟩
          | ok acc1 =>
            obtain ⟨err, herr⟩ := ih n es e hmem2 hlen he hg acc1
            exact ⟨err, by simp only [buildUniqueMap, hins]; exact herr⟩

/-- If a unique name is already a key and is generated again later, the
index build fails. -/
theorem buildUniqueMap_err_key (m : List (String × List Elem)) :
    ∀ acc u, u ∈ acc.map Prod.fst → u ∈ genNames m →
    ∃ err, buildUniqueMap m acc = .error err := by
  induction m with
  | nil =>
    intro acc u _ hu
    simp [genNames] at hu
  | cons g rest ih =>
    intro acc u hukeys hu
    obtain ⟨n0, es0⟩ := g
    rcases es0 with _ | ⟨e1, tl⟩
    · have hu2 : u ∈ genNames rest := by
        simpa [genNames, groupGenNames] using hu
      obtain ⟨err, herr⟩ := ih acc u hukeys hu2
      exact ⟨err, by simp only [buildUniqueMap, insertUniqueGroup]; exact herr⟩
    · rcases tl with _ | ⟨e2, tl2⟩
      · have hu2 : u ∈ genNames rest := by simpa [genNames] using hu
        obtain ⟨err, herr⟩ := ih (assocSet acc n0 e1) u
          ((assocSet_keys_mem acc n0 u e1).mpr (Or.inl hukeys)) hu2
        exact ⟨err, by simp only [buildUniqueMap]; exact herr⟩
      · have hlen : ((e1 : Elem) :: e2 :: tl2).length ≠ 1 := by simp
        have hu2 : u ∈ groupGenNames (e1 :: e2 :: tl2) ∨ u ∈ genNames rest := by
          have := hu
          simp only [genNames, if_neg hlen, List.mem_append] at this
          exact this
        rcases hu2 with hu3 | hu3
        · obtain ⟨e, he, hgo⟩ := List.mem_filterMap.mp hu3
          obtain ⟨err, herr⟩ := insertUniqueGroup_err_dup (e1 :: e2 :: tl2)
            acc u hukeys ⟨e, he, (genOf_eq_some e u).mp hgo⟩
          exact ⟨err, by simp only [buildUniqueMap, herr]⟩
        · cases hins : insertUniqueGroup acc (e1 :: e2 :: tl2) with
          | error err => exact ⟨err, by simp only [buildUniqueMap, hins]⟩
          | ok acc1 =>
            obtain ⟨err, herr⟩ := ih acc1 u
              (insertUniqueGroup_ok_keys _ _ _ hins u hukeys) hu3
            exact ⟨err, by simp only [buildUniqueMap, hins]; exact herr⟩

/-- Two generation occurrences of the same unique name anywhere among the
collision groups make the index build fail. -/
theorem buildUniqueMap_err_dupgen (m : List (String × List Elem)) :
    ∀ acc u, 2 ≤ (genNames m).count u →
    ∃ err, buildUniqueMap m acc = .error err := by
  induction m with
  | nil =>
    intro acc u h
    simp [genNames] at h
  | cons g rest ih =>
    intro acc u hcount
    obtain ⟨n0, es0⟩ := g
    rcases es0 with _ | ⟨e1, tl⟩
    · have h2 : 2 ≤ (genNames rest).count u := by
        simpa [genNames, groupGenNames] using hcount
      obtain ⟨err, herr⟩ := ih acc u h2
      exact ⟨err, by simp only [buildUniqueMap, insertUniqueGroup]; exact herr⟩
    · rcases tl with _ | ⟨e2, tl2⟩
      · have h2 : 2 ≤ (genNames rest).count u := by simpa [genNames] using hcount
        obtain ⟨err, herr⟩ := ih (assocSet acc n0 e1) u h2
        exact ⟨err, by simp only [buildUniqueMap]; exact herr⟩
      · have hlen : ((e1 : Elem) :: e2 :: tl2).length ≠ 1 := by simp
        have hcnt : (genNames ((n0, e1 :: e2 :: tl2) :: rest)).count u =
            (groupGenNames (e1 :: e2 :: tl2)).count u +
              (genNames rest).count u := by
          simp [genNames, if_neg hlen, List.count_append]
        rw [hcnt] at hcount
        by_cases hc2 : 2 ≤ (groupGenNames (e1 :: e2 :: tl2)).count u
        · obtain ⟨err, herr⟩ := insertUniqueGroup_err_dup2 _ acc u hc2
          exact ⟨err, by simp only [buildUniqueMap, herr]⟩
        · by_cases hc1 : 1 ≤ (groupGenNames (e1 :: e2 :: tl2)).count u
          · have hrest : 1 ≤ (genNames rest).count u := by omega
            cases hins : insertUniqueGroup acc (e1 :: e2 :: tl2) with
            | error err => exact ⟨err, by simp only [buildUniqueMap, hins]⟩
            | ok acc1 =>
              have hmem : u ∈ groupGenNames (e1 :: e2 :: tl2) :=
                List.count_pos_iff.mp (by omega)
              obtain ⟨e, he, hgo⟩ := List.mem_filterMap.mp hmem
              have hukeys : u ∈ acc1.map Prod.fst :=
                insertUniqueGroup_ok_gen _ _ _ hins e he u
                  ((genOf_eq_some e u).mp hgo)
              have hurest : u ∈ genNames rest := List.count_pos_iff.mp (by omega)
              obtain ⟨err, herr⟩ := buildUniqueMap_err_key rest acc1 u hukeys hurest
              exact ⟨err, by simp only [buildUniqueMap, hins]; exact herr⟩
          · have hrest : 2 ≤ (genNames rest).count u := by omega
            cases hins : insertUniqueGroup acc (e1 :: e2 :: tl2) with
            | error err => exact ⟨err, by simp only [buildUniqueMap, hins]⟩
            | ok acc1 =>
              obtain ⟨err, herr⟩ := ih acc1 u hrest
              exact ⟨err, by simp only [buildUniqueMap, hins]; exact herr⟩

/-- The index build processes an appended byName list sequentially. -/
theorem buildUniqueMap_append (l1 l2 : List (String × List Elem)) :
    ∀ acc, buildUniqueMap (l1 ++ l2) acc =
      match buildUniqueMap l1 acc with
      | .ok acc1 => buildUniqueMap l2 acc1
      | .error err => .error err := by
  induction l1 with
  | nil => intro acc; rfl
  | cons g rest ih =>
    intro acc
    obtain ⟨n0, es0⟩ := g
    rcases es0 with _ | ⟨e1, tl⟩
    · simp only [List.cons_append, buildUniqueMap, insertUniqueGroup]
      exact ih acc
    · rcases tl with _ | ⟨e2, tl2⟩
      · simp only [List.cons_append, buildUniqueMap]
        exact ih (assocSet acc n0 e1)
      · simp only [List.cons_append, buildUniqueMap]
        cases hins : insertUniqueGroup acc (e1 :: e2 :: tl2) with
        | error err => simp only [hins]
        | ok acc1 =>
          simp only [hins]
          exact ih acc1

/-- Claim C6, singleton part, at the level of the index build: a name
borne by exactly one element is mapped to that element under the plain
name. -/
theorem buildUniqueMap_singleton (m : List (String × List Elem))
    (um : List (String × Elem)) (hok : buildUniqueMap m [] = .ok um)
    (hnd : (m.map Prod.fst).Nodup) (n : String) (e : Elem)
    (hmem : (n, [e]) ∈ m) : assocLookup um n = some e := by
  obtain ⟨l1, l2, rfl⟩ := List.append_of_mem hmem
  rw [buildUniqueMap_append] at hok
  cases hb1 : buildUniqueMap l1 [] with
  | error err =>
    simp only [hb1] at hok
    cases hok
  | ok acc1 =>
    simp only [hb1] at hok
    simp only [buildUniqueMap] at hok
    have hn2 : n ∉ l2.map Prod.fst := by
      rw [List.map_append, List.map_cons] at hnd
      have h2 := hnd.of_append_right
      exact (List.nodup_cons.mp h2).1
    exact buildUniqueMap_ok_preserves l2 _ um n e hok
      (assocSet_lookup_self acc1 n e) hn2

/-- Removing the unique-name field is the identity when it is already nil. -/
theorem cacheState_eta_unique (c : CacheState)
    (h : c.uniqueNameToElement = none) :
    { c with uniqueNameToElement := none } = c := by
  obtain ⟨fa, el, nm, um, idm, reg⟩ := c
  obtain rfl : um = none := h
  rfl

/-- Same as `cacheState_eta_unique` with a byName update alongside. -/
theorem cacheState_eta_unique2 (c : CacheState)
    (m1 : List (String × List Elem)) (h : c.uniqueNameToElement = none) :
    { c with nameToElements := some m1, uniqueNameToElement := none } =
      { c with nameToElements := some m1 } := by
  obtain ⟨fa, el, nm, um, idm, reg⟩ := c
  obtain rfl : um = none := h
  rfl

/-- Evaluation of `ElementWithUniqueName` on a loaded cache when the index
build fails: the error is returned and the cache keeps no unique-name
index. -/
theorem elementWithUniqueName_eval_err (pf : PageFunc) (fuel : Nat)
    (c : CacheState) (q : String) (m : List (String × List Elem))
    (err : String) (hfound : c.foundAll = true)
    (hnm : c.nameToElements = some m) (hum : c.uniqueNameToElement = none)
    (hb : buildUniqueMap m [] = .error err) :
    (ElementWithUniqueName pf fuel c q).1 = .fail err c := by
  have heta : { c with nameToElements := some m, uniqueNameToElement := none } = c := by
    obtain ⟨fa, el, nm, um, idm, reg⟩ := c
    obtain rfl : nm = some m := hnm
    obtain rfl : um = none := hum
    rfl
  simp only [ElementWithUniqueName, loadAllUnsafe_foundAll pf fuel 0 c hfound,
    CRes.bindU, populateNameMapUnsafe, hnm, populateUniqueNameMapUnsafe, hum,
    hb, CRes.withVal, heta]

/-- Evaluation of `ElementWithUniqueName` on a loaded cache when the index
build succeeds and the trailing name loop succeeds: the unique-name index
is installed and the byName index has been re-appended to. -/
theorem elementWithUniqueName_eval_ok (pf : PageFunc) (fuel : Nat)
    (c : CacheState) (q : String) (m m1 : List (String × List Elem))
    (um : List (String × Elem)) (hfound : c.foundAll = true)
    (hnm : c.nameToElements = some m) (hum : c.uniqueNameToElement = none)
    (hb : buildUniqueMap m [] = .ok um)
    (hs : strayNameAppend c.elements m = (m1, none)) :
    (ElementWithUniqueName pf fuel c q).1 =
      .ok { c with nameToElements := some m1, uniqueNameToElement := some um }
        (assocLookup um q) := by
  simp only [ElementWithUniqueName, loadAllUnsafe_foundAll pf fuel 0 c hfound,
    CRes.bindU, populateNameMapUnsafe, hnm, populateUniqueNameMapUnsafe, hum,
    hb, hs, CRes.withVal, Option.getD_some]

/-- Claim C6: with the byName index built and the unique-name index not
yet built, `ElementWithUniqueName` fails (leaving the unique-name index
nil) whenever a group of two or more same-named elements has a member
without the generator capability, and whenever the same unique name is
generated twice over the collision groups; and on success every name
borne by exactly one element maps that element under its plain name. -/
theorem c6_unique_name_consistency (pf : PageFunc) (fuel : Nat)
    (c : CacheState) (m : List (String × List Elem)) (q : String)
    (hfound : c.foundAll = true) (hnm : c.nameToElements = some m)
    (hum : c.uniqueNameToElement = none) :
    ((∃ n es e, (n, es) ∈ m ∧ 2 ≤ es.length ∧ e ∈ es ∧ e.uniqueGen = none) →
      ∃ err, (ElementWithUniqueName pf fuel c q).1 = .fail err c ∧
        c.uniqueNameToElement = none) ∧
    ((∃ u, 2 ≤ (genNames m).count u) →
      ∃ err, (ElementWithUniqueName pf fuel c q).1 = .fail err c ∧
        c.uniqueNameToElement = none) ∧
    (∀ st v, (ElementWithUniqueName pf fuel c q).1 = .ok st v →
      (m.map Prod.fst).Nodup →
      ∀ n e, (n, [e]) ∈ m →
        ∃ um, st.uniqueNameToElement = some um ∧ assocLookup um n = some e) := by
  refine ⟨?_, ?_, ?_⟩
  · rintro ⟨n, es, e, hmem, hlen2, he, hgnone⟩
    obtain ⟨err, herr⟩ := buildUniqueMap_err_nogen m n es e hmem
      (by omega) he hgnone []
    exact ⟨err, elementWithUniqueName_eval_err pf fuel c q m err hfound hnm
      hum herr, hum⟩
  · rintro ⟨u, hcount⟩
    obtain ⟨err, herr⟩ := buildUniqueMap_err_dupgen m [] u hcount
    exact ⟨err, elementWithUniqueName_eval_err pf fuel c q m err hfound hnm
      hum herr, hum⟩
  · intro st v hok hnd n e hmem
    cases hb : buildUniqueMap m [] with
    | error err =>
      rw [elementWithUniqueName_eval_err pf fuel c q m err hfound hnm hum hb]
        at hok
      cases hok
    | ok um =>
      rcases hs : strayNameAppend c.elements m with ⟨m1, oerr⟩
      cases oerr with
      | some err =>
        have heval : (ElementWithUniqueName pf fuel c q).1 =
            .fail err { c with nameToElements := some m1 } := by
          simp only [ElementWithUniqueName,
            loadAllUnsafe_foundAll pf fuel 0 c hfound, CRes.bindU,
            populateNameMapUnsafe, hnm, populateUniqueNameMapUnsafe, hum,
            hb, hs, CRes.withVal, cacheState_eta_unique2 c m1 hum]
        rw [heval] at hok
        cases hok
      | none =>
        rw [elementWithUniqueName_eval_ok pf fuel c q m m1 um hfound hnm hum
          hb hs] at hok
        cases hok
        exact ⟨um, rfl, buildUniqueMap_singleton m um hb hnd n e hmem⟩

/-- Witness for C6 on the concrete colliding pair, using the
duplicate-generation branch. -/
theorem c6_unique_name_consistency_witness :
    (∃ u, 2 ≤ (genNames [("a", [elemColl1, elemColl2])]).count u) ∧
    ∃ err, (ElementWithUniqueName pfA 2 stateColl "u").1 = .fail err stateColl ∧
      stateColl.uniqueNameToElement = none :=
  ⟨⟨"u", by decide⟩,
   (c6_unique_name_consistency pfA 2 stateColl [("a", [elemColl1, elemColl2])]
      "u" rfl rfl rfl).2.1 ⟨"u", by decide⟩⟩

/-! ## Claim C7: content hash acquisition at photo construction -/

/-- A successful pattern match captures exactly 32 hexadecimal characters. -/
theorem matchMD5Path_shape (s cap : List Char)
    (h : matchMD5Path s = some cap) :
    cap.length = 32 ∧ cap.all isHexChar = true := by
  unfold matchMD5Path at h
  split at h
  · split at h
    · cases h
    · split at h
      · split at h
        · cases h
        · split at h
          · split at h
            · rename_i hguard
              obtain rfl : _ = cap := by injection h
              rw [Bool.and_eq_true] at hguard
              exact ⟨of_decide_eq_true hguard.1, hguard.2⟩
            · cases h
          · cases h
      · cases h
  · cases h

/-- Claim C7: a photo construction uses the directly supplied content hash
when present; otherwise, with a URL present, it extracts the hash by
matching the path against `/<digits>/<digits>_<32 hex>` and hex-decoding
the capture, failing with a format error when the pattern does not match;
with neither supplied it fails; and every successfully constructed photo
has its hash fixed from one of these two sources at construction time. -/
theorem c7_content_hash_acquisition (H : List Nat → List Nat)
    (cid : List Nat) (pname : String) (md5 : Option (List Nat))
    (nid sz : Nat) (url : String) :
    (∀ h0, md5 = some h0 →
      ∃ p, newPhoto H cid pname md5 nid sz url = .ok p ∧ p.md5Hash = h0) ∧
    (md5 = none → url = "" →
      newPhoto H cid pname md5 nid sz url =
        .error "MD5 or photo URL must be provided") ∧
    (md5 = none → ¬ url = "" → ∀ cap, matchMD5Path url.toList = some cap →
      ∃ p, newPhoto H cid pname md5 nid sz url = .ok p ∧
        p.md5Hash = hexDecodePairs cap) ∧
    (md5 = none → ¬ url = "" → matchMD5Path url.toList = none →
      newPhoto H cid pname md5 nid sz url =
        .error "regexp failed to find MD5 hash in URL") ∧
    (∀ p, newPhoto H cid pname md5 nid sz url = .ok p →
      md5 = some p.md5Hash ∨ md5HashFromPhotoURL url = .ok p.md5Hash) := by
  have hdec : ∀ cap : List Char, matchMD5Path url.toList = some cap →
      md5HashFromPhotoURL url = .ok (hexDecodePairs cap) := by
    intro cap hcap
    obtain ⟨hl, hhex⟩ := matchMD5Path_shape url.toList cap hcap
    have hcap2 : matchMD5Path url.data = some cap := hcap
    have hhex2 : ∀ x ∈ cap, isHexChar x = true := by
      simpa [List.all_eq_true] using hhex
    simp [md5HashFromPhotoURL, hcap2, md5UnmarshalText, hl]
    exact hhex2
  refine ⟨?_, ?_, ?_, ?_, ?_⟩
  · rintro h0 rfl
    exact ⟨{ id := H (cid ++ h0), md5Hash := h0, name := pname,
             nixplayID := nid, size := sz, url := url },
      by simp [newPhoto], rfl⟩
  · rintro rfl rfl
    simp [newPhoto]
  · rintro rfl hurl cap hcap
    refine ⟨{ id := H (cid ++ hexDecodePairs cap), md5Hash := hexDecodePairs cap,
              name := pname, nixplayID := nid, size := sz, url := url },
      ?_, rfl⟩
    simp [newPhoto, hurl, hdec cap hcap]
  · rintro rfl hurl hnone
    have hnone2 : matchMD5Path url.data = none := hnone
    simp [newPhoto, hurl, md5HashFromPhotoURL, hnone2]
  · intro p hp
    rcases md5 with _ | h0
    · by_cases hurl : url = ""
      · simp [newPhoto, hurl] at hp
      · cases hext : md5HashFromPhotoURL url with
        | error err => simp [newPhoto, hurl, hext] at hp
        | ok h1 =>
          right
          have hp2 : newPhoto H cid pname none nid sz url =
              .ok { id := H (cid ++ h1), md5Hash := h1, name := pname,
                    nixplayID := nid, size := sz, url := url } := by
            simp [newPhoto, hurl, hext]
          rw [hp2] at hp
          obtain rfl := Except.ok.inj hp
          rfl
    · left
      simp only [newPhoto] at hp
      obtain rfl := (Except.ok.inj hp).symm
      rfl

/-- Witness for C7 at a concrete playlist photo URL path. -/
theorem c7_content_hash_acquisition_witness :
    ∃ p, newPhoto (fun l => l) [3] "w.jpg" none 0 9
        "/12/34_00112233445566778899aabbccddeeff.jpg" = .ok p ∧
      p.md5Hash = hexDecodePairs
        "00112233445566778899aabbccddeeff".toList :=
  (c7_content_hash_acquisition (fun l => l) [3] "w.jpg" none 0 9
      "/12/34_00112233445566778899aabbccddeeff.jpg").2.2.1 rfl (by decide)
    "00112233445566778899aabbccddeeff".toList (by decide)

end GoNixplay
